import Mathlib

/-! # gettime: a steady-clock reading printed as whole microseconds

Verification development for `src/ftrace_energy/gettime.cpp`:

```
int main(int argc, char const *argv[])
{
	auto now = std::chrono::steady_clock::now().time_since_epoch();
	auto us = std::chrono::duration_cast<std::chrono::microseconds>(now);
	std::cout << us.count() << std::endl;
	return 0;
}
```

The program is embedded as the pure function `gettime.main`.  What the program takes
from its environment is made an explicit argument: the argument vector, the tick count
of `steady_clock::now().time_since_epoch()` (a signed 64-bit count of nanoseconds) and
the state of `std::cout`, which records whether the device behind standard output
accepts writes.  The result is the final state of `std::cout` and the value returned
by `main`.

The standard-library operations `main` calls are embedded next to it: 64-bit signed
arithmetic, `std::ratio`, `std::chrono::duration_cast`, the decimal formatting done by
`operator<<(long long)`, and `std::endl`.  The function `gettime.run` places `main` in a
process: it tells a write that returns an error from a write that ends the process with
`SIGPIPE`, in which case `main` does not return.
-/

set_option linter.unusedVariables false

namespace gettime

/-! ## Signed 64-bit integers -/

/-- Smallest value of `int64_t`. -/
def INT64_MIN : Int := -(2 ^ 63)

/-- Largest value of `int64_t`. -/
def INT64_MAX : Int := 2 ^ 63 - 1

/-- Value held by a signed 64-bit register after storing the mathematical integer `x`:
the representative of `x` modulo `2 ^ 64` that lies in `[-2 ^ 63, 2 ^ 63)`. -/
def wrap_int64 (x : Int) : Int := (x + 2 ^ 63) % 2 ^ 64 - 2 ^ 63

/-! ## `std::ratio` and `std::chrono::duration_cast` -/

/-- Type `std::ratio<num, den>`, kept in lowest terms with a positive denominator. -/
structure ratio where
  num : Int
  den : Int
deriving DecidableEq

/-- Normalisation done by `std::ratio<n, d>`: divide both by the gcd and move the sign
to the numerator. -/
def ratio.normalise (n d : Int) : ratio :=
  let g : Int := (Int.gcd n d : Nat)
  { num := Int.tdiv (Int.sign d * n) g, den := Int.tdiv (d.natAbs : Nat) g }

/-- Period `std::nano`. -/
def nano : ratio := ratio.normalise 1 1000000000

/-- Period `std::micro`. -/
def micro : ratio := ratio.normalise 1 1000000

/-- Meta-function `std::ratio_divide<r1, r2>`. -/
def ratio_divide (r1 r2 : ratio) : ratio :=
  ratio.normalise (r1.num * r2.den) (r1.den * r2.num)

/-- Period of `std::chrono::steady_clock::duration`: the clock counts nanoseconds in a
signed 64-bit `rep`. -/
def steady_clock_period : ratio := nano

/-- Function `std::chrono::duration_cast<ToDuration>(d)` for 64-bit integer `rep`s.  With
`CF = ratio_divide<Period, ToPeriod>` the count is copied when `CF` is `1/1`, divided by
`CF::den` when `CF::num` is 1, multiplied by `CF::num` when `CF::den` is 1, and multiplied
then divided otherwise.  All arithmetic is done in the 64-bit common type; division is
the C++ integer division, which truncates toward zero. -/
def duration_cast (period to_period : ratio) (count : Int) : Int :=
  let cf := ratio_divide period to_period
  if cf.num = 1 ∧ cf.den = 1 then wrap_int64 count
  else if cf.num = 1 then wrap_int64 (Int.tdiv count cf.den)
  else if cf.den = 1 then wrap_int64 (count * cf.num)
  else wrap_int64 (Int.tdiv (wrap_int64 (count * cf.num)) cf.den)

/-! ## Decimal formatting of `operator<<(long long)` -/

/-- Character of the decimal digit `d`, that is `'0' + d`. -/
def digit_char (d : Nat) : Char := Char.ofNat ('0'.toNat + d)

/-- Digit loop of the integer formatter: `do { *--p = '0' + v % 10; v /= 10; } while (v != 0);`.
The digits are produced from the least significant one and stored in front of `buf`.
The first argument bounds the number of iterations. -/
def int_to_char : Nat → Nat → List Char → List Char
  | 0, _, buf => buf
  | fuel + 1, v, buf =>
    let buf1 := digit_char (v % 10) :: buf
    if v / 10 = 0 then buf1 else int_to_char fuel (v / 10) buf1

/-- Characters `num_put` produces for a `long long` in base ten: the digits of the
magnitude (computed in the unsigned type), preceded by `-` for a negative value, or by
`+` for a non-negative one when `showpos` is set. -/
def insert_int (showpos : Bool) (v : Int) : List Char :=
  let u : Nat := v.natAbs
  let digits := int_to_char (u + 1) u []
  if v < 0 then '-' :: digits
  else if showpos then '+' :: digits
  else digits

/-! ## Output stream -/

/-- State of a `std::ostream`: the bytes its device has received, the `showpos` format
flag, the `badbit` error flag, and whether the device accepts writes.  The exception
mask is the default `goodbit`, so setting `badbit` never throws.  A device that does not
accept writes is one whose write call returns an error to the stream (a full device, a
closed descriptor); a write that ends the process with a signal is not a state of the
stream and is described by `run`.  The stream has no buffer of its own here, so a
rejected write shows in `badbit` at the insertion rather than at the flush; the state
after `std::endl` is the same. -/
structure ostream where
  bytes : List Char
  showpos : Bool
  badbit : Bool
  device_ok : Bool
deriving DecidableEq

/-- Stream `std::cout` at program start: nothing written, default format flags, no
error. -/
def cout (device_ok : Bool) : ostream :=
  { bytes := [], showpos := false, badbit := false, device_ok := device_ok }

/-- Write characters through the stream.  When the stream is already in error the sentry
fails and nothing is attempted; when the device rejects the write `badbit` is set. -/
def ostream.write (os : ostream) (s : List Char) : ostream :=
  if os.badbit then os
  else if os.device_ok then { os with bytes := os.bytes ++ s }
  else { os with badbit := true }

/-- Inserter `operator<<(long long)`. -/
def ostream.insert_long (os : ostream) (v : Int) : ostream :=
  os.write (insert_int os.showpos v)

/-- Member `flush()`: sets `badbit` when the device cannot be synchronised. -/
def ostream.flush (os : ostream) : ostream :=
  if os.badbit then os
  else if os.device_ok then os
  else { os with badbit := true }

/-- Manipulator `std::endl`: `put('\n')` followed by `flush()`. -/
def endl (os : ostream) : ostream :=
  (os.write ['\n']).flush

/-! ## The program -/

/-- Function `main` of `gettime.cpp`.  `now` is the tick count of
`steady_clock::now().time_since_epoch()`; `os` is `std::cout` on entry.  Returns
`std::cout` on exit and the exit code. -/
def main (argc : Int) (argv : List String) (now : Int) (os : ostream) : ostream × Int :=
  let us := duration_cast steady_clock_period micro now
  let os1 := os.insert_long us
  let os2 := endl os1
  (os2, 0)

/-- Bytes a run writes to standard output when the device accepts writes. -/
def stdout_of (argc : Int) (argv : List String) (now : Int) : List Char :=
  (main argc argv now (cout true)).1.bytes

/-- Bytes written by `std::cout << v << std::endl` on a fresh stream whose device accepts
writes. -/
def print_line (v : Int) : List Char :=
  (endl ((cout true).insert_long v)).bytes

/-! ## The process -/

/-- Value of a decimal digit character, `none` for any other character. -/
def digit_value (c : Char) : Option Nat :=
  if '0' ≤ c ∧ c ≤ '9' then some (c.toNat - '0'.toNat) else none

/-- Left-to-right accumulation of decimal digits. -/
def parse_digits : Nat → List Char → Option Nat
  | acc, [] => some acc
  | acc, c :: cs =>
    match digit_value c with
    | some d => parse_digits (acc * 10 + d) cs
    | none => none

/-- Parse a signed decimal integer: an optional `-` followed by one or more decimal
digits and nothing else. -/
def parse_signed_decimal : List Char → Option Int
  | [] => none
  | '-' :: cs => if cs = [] then none else (parse_digits 0 cs).map (fun m => -(m : Int))
  | cs => (parse_digits 0 cs).map (fun m => (m : Int))

/-- Remove the single trailing newline of a line; `none` when the text does not end in
a newline. -/
def strip_newline (line : List Char) : Option (List Char) :=
  if line.getLast? = some '\n' then some line.dropLast else none

/-- Integer read back from an output line. -/
def read_line (line : List Char) : Option Int :=
  (strip_newline line).bind parse_signed_decimal

end gettime

namespace gettime

/-! ## Arithmetic of the conversion -/

theorem conversion_factor : ratio_divide steady_clock_period micro = ⟨1, 1000⟩ := by
  decide

theorem duration_cast_unfold (now : Int) :
    duration_cast steady_clock_period micro now = wrap_int64 (Int.tdiv now 1000) := by
  unfold duration_cast
  rw [conversion_factor]
  simp

theorem tdiv_thousand (n : Int) :
    Int.tdiv n 1000 = if 0 ≤ n then n / 1000 else -((-n) / 1000) := by
  split
  · next h => exact Int.tdiv_eq_ediv h (by decide)
  · next h =>
    have h1 : (0 : Int) ≤ -n := by omega
    have h2 := Int.tdiv_eq_ediv h1 (show (0 : Int) ≤ 1000 by decide)
    rw [Int.neg_tdiv] at h2
    omega

theorem wrap_int64_id (x : Int) (hlo : INT64_MIN ≤ x) (hhi : x ≤ INT64_MAX) :
    wrap_int64 x = x := by
  unfold INT64_MIN at hlo
  unfold INT64_MAX at hhi
  unfold wrap_int64
  omega

theorem tdiv_thousand_range (n : Int) (hlo : INT64_MIN ≤ n) (hhi : n ≤ INT64_MAX) :
    INT64_MIN ≤ Int.tdiv n 1000 ∧ Int.tdiv n 1000 ≤ INT64_MAX := by
  unfold INT64_MIN at hlo ⊢
  unfold INT64_MAX at hhi ⊢
  rw [tdiv_thousand]
  split <;> omega

theorem duration_cast_exact (now : Int) (hlo : INT64_MIN ≤ now) (hhi : now ≤ INT64_MAX) :
    duration_cast steady_clock_period micro now = Int.tdiv now 1000 := by
  rw [duration_cast_unfold]
  exact wrap_int64_id _ (tdiv_thousand_range now hlo hhi).1 (tdiv_thousand_range now hlo hhi).2

/-! ## Digits -/

theorem digit_char_range (d : Nat) (h : d < 10) :
    '0' ≤ digit_char d ∧ digit_char d ≤ '9' := by
  interval_cases d <;> decide

theorem digit_char_ne_zero (d : Nat) (h0 : d ≠ 0) (h : d < 10) : digit_char d ≠ '0' := by
  interval_cases d <;> first | decide | exact absurd rfl h0

theorem digit_value_digit_char (d : Nat) (h : d < 10) :
    digit_value (digit_char d) = some d := by
  interval_cases d <;> decide

theorem int_to_char_zero (buf : List Char) : int_to_char 1 0 buf = '0' :: buf := by
  simp [int_to_char, digit_char]

theorem int_to_char_digits (fuel : Nat) :
    ∀ (v : Nat) (buf : List Char), 0 < v → v < fuel →
      int_to_char fuel v buf = (Nat.digits 10 v).reverse.map digit_char ++ buf := by
  induction fuel with
  | zero => intro v buf _ h; omega
  | succ fuel ih =>
    intro v buf hv hlt
    have hd : Nat.digits 10 v = (v % 10) :: Nat.digits 10 (v / 10) :=
      Nat.digits_def' (by decide) hv
    by_cases hq : v / 10 = 0
    · simp [int_to_char, hq, hd]
    · have hq0 : 0 < v / 10 := Nat.pos_of_ne_zero hq
      have hqf : v / 10 < fuel := by omega
      simp [int_to_char, hq, hd, ih (v / 10) _ hq0 hqf]

theorem decimal_pos (u : Nat) (hu : 0 < u) :
    int_to_char (u + 1) u [] = (Nat.digits 10 u).reverse.map digit_char := by
  rw [int_to_char_digits (u + 1) u [] hu (by omega)]
  simp

theorem decimal_shape (u : Nat) :
    ∃ d ds, int_to_char (u + 1) u [] = d :: ds ∧ ('0' ≤ d ∧ d ≤ '9') ∧
      (u ≠ 0 → d ≠ '0') ∧ (u = 0 → d = '0' ∧ ds = []) ∧ ∀ c ∈ ds, '0' ≤ c ∧ c ≤ '9' := by
  rcases Nat.eq_zero_or_pos u with h0 | hpos
  · subst h0
    exact ⟨'0', [], int_to_char_zero [], by decide, fun h => absurd rfl h,
      fun _ => ⟨rfl, rfl⟩, by simp⟩
  · have hu : u ≠ 0 := by omega
    have hne : Nat.digits 10 u ≠ [] := Nat.digits_ne_nil_iff_ne_zero.mpr hu
    have hlast := Nat.getLast_digit_ne_zero 10 hu
    have hsplit := List.dropLast_append_getLast hne
    have hlt : ∀ x ∈ Nat.digits 10 u, x < 10 := fun x hx =>
      Nat.digits_lt_base (by decide) hx
    refine ⟨digit_char ((Nat.digits 10 u).getLast hne),
      (Nat.digits 10 u).dropLast.reverse.map digit_char, ?_, ?_, ?_, ?_, ?_⟩
    · rw [decimal_pos u hpos]
      conv_lhs => rw [← hsplit]
      simp
    · exact digit_char_range _ (hlt _ (List.getLast_mem hne))
    · intro _
      exact digit_char_ne_zero _ hlast (hlt _ (List.getLast_mem hne))
    · intro h
      exact absurd h hu
    · intro c hc
      simp only [List.mem_map, List.mem_reverse] at hc
      obtain ⟨x, hx, rfl⟩ := hc
      exact digit_char_range x (hlt x (List.mem_of_mem_dropLast hx))

/-! ## Reading the digits back -/

theorem parse_digits_append (xs ys : List Char) :
    ∀ acc, parse_digits acc (xs ++ ys) =
      (parse_digits acc xs).bind (fun m => parse_digits m ys) := by
  induction xs with
  | nil => intro acc; simp [parse_digits]
  | cons c cs ih =>
    intro acc
    simp only [List.cons_append, parse_digits]
    cases digit_value c with
    | none => simp
    | some d => simp [ih]

theorem parse_digits_of_digits (L : List Nat) (hL : ∀ d ∈ L, d < 10) :
    parse_digits 0 (L.reverse.map digit_char) = some (Nat.ofDigits 10 L) := by
  induction L with
  | nil => simp [parse_digits]
  | cons d L ih =>
    have hd : d < 10 := hL d (List.mem_cons_self d L)
    have hrest : ∀ x ∈ L, x < 10 := fun x hx => hL x (List.mem_cons_of_mem d hx)
    rw [List.reverse_cons, List.map_append, parse_digits_append, ih hrest]
    simp [parse_digits, digit_value_digit_char d hd, Nat.ofDigits_cons]
    omega

theorem parse_decimal (u : Nat) : parse_digits 0 (int_to_char (u + 1) u []) = some u := by
  rcases Nat.eq_zero_or_pos u with h0 | hpos
  · subst h0
    rw [int_to_char_zero]
    decide
  · rw [decimal_pos u hpos,
      parse_digits_of_digits _ (fun x hx => Nat.digits_lt_base (by decide) hx),
      Nat.ofDigits_digits]

theorem parse_signed_of_digit (c : Char) (cs : List Char) (hc : '0' ≤ c ∧ c ≤ '9') :
    parse_signed_decimal (c :: cs) = (parse_digits 0 (c :: cs)).map (fun m => (m : Int)) := by
  have hne : c ≠ '-' := by
    rintro rfl
    revert hc
    decide
  unfold parse_signed_decimal
  split
  · next h => cases h
  · next h =>
    cases h
    exact absurd rfl hne
  · rfl

theorem parse_signed_insert_int (v : Int) :
    parse_signed_decimal (insert_int false v) = some v := by
  obtain ⟨d, ds, hshape, hd, -, -, -⟩ := decimal_shape v.natAbs
  have hparse := parse_decimal v.natAbs
  unfold insert_int
  by_cases hneg : v < 0
  · simp only [hneg, if_true]
    rw [hshape] at hparse ⊢
    simp only [parse_signed_decimal]
    simp [hparse, abs_of_neg hneg]
  · simp only [hneg, if_false, Bool.false_eq_true]
    rw [hshape] at hparse ⊢
    rw [parse_signed_of_digit d ds hd, hparse]
    simp [abs_of_nonneg (not_lt.mp hneg)]

theorem strip_newline_line (xs : List Char) : strip_newline (xs ++ ['\n']) = some xs := by
  simp [strip_newline]

theorem read_line_insert_int (v : Int) : read_line (insert_int false v ++ ['\n']) = some v := by
  simp [read_line, strip_newline_line, parse_signed_insert_int]

theorem stdout_of_unfold (argc : Int) (argv : List String) (now : Int) :
    stdout_of argc argv now =
      insert_int false (duration_cast steady_clock_period micro now) ++ ['\n'] := by
  simp [stdout_of, main, endl, ostream.insert_long, ostream.write, ostream.flush, cout]

theorem print_line_unfold (v : Int) : print_line v = insert_int false v ++ ['\n'] := by
  simp [print_line, endl, ostream.insert_long, ostream.write, ostream.flush, cout]

theorem stdout_of_exact (argc : Int) (argv : List String) (now : Int)
    (hlo : INT64_MIN ≤ now) (hhi : now ≤ INT64_MAX) :
    stdout_of argc argv now = insert_int false (Int.tdiv now 1000) ++ ['\n'] := by
  rw [stdout_of_unfold, duration_cast_exact now hlo hhi]

theorem read_line_stdout (argc : Int) (argv : List String) (now : Int)
    (hlo : INT64_MIN ≤ now) (hhi : now ≤ INT64_MAX) :
    read_line (stdout_of argc argv now) = some (Int.tdiv now 1000) := by
  rw [stdout_of_exact argc argv now hlo hhi, read_line_insert_int]

theorem floor_thousand (n : Int) : ⌊(n : ℚ) / 1000⌋ = n / 1000 := by
  have h := Rat.floor_intCast_div_natCast n 1000
  simpa using h

theorem ceil_thousand (n : Int) : ⌈(n : ℚ) / 1000⌉ = -((-n) / 1000) := by
  have h := floor_thousand (-n)
  have h2 : ((-n : Int) : ℚ) / 1000 = -((n : ℚ) / 1000) := by
    push_cast
    ring
  rw [h2, Int.floor_neg] at h
  omega

theorem insert_int_shape (v : Int) :
    ∃ d ds, insert_int false v = (if v < 0 then ['-'] else []) ++ d :: ds ∧
      ('0' ≤ d ∧ d ≤ '9') ∧ (v ≠ 0 → d ≠ '0') ∧ (v = 0 → d = '0' ∧ ds = []) ∧
      ∀ c ∈ ds, '0' ≤ c ∧ c ≤ '9' := by
  obtain ⟨d, ds, hshape, hd, hnz, hz, hds⟩ := decimal_shape v.natAbs
  refine ⟨d, ds, ?_, hd, fun h => hnz (by omega), fun h => hz (by omega), hds⟩
  unfold insert_int
  by_cases hneg : v < 0
  · simp [hneg, hshape]
  · simp [hneg, hshape]

theorem stdout_shape (argc : Int) (argv : List String) (now : Int) :
    ∃ sign digits, (sign = [] ∨ sign = ['-']) ∧ digits ≠ [] ∧
      (∀ c ∈ digits, '0' ≤ c ∧ c ≤ '9') ∧
      stdout_of argc argv now = sign ++ digits ++ ['\n'] := by
  obtain ⟨d, ds, hshape, hd, -, -, hds⟩ :=
    insert_int_shape (duration_cast steady_clock_period micro now)
  refine ⟨if duration_cast steady_clock_period micro now < 0 then ['-'] else [], d :: ds,
    ?_, by simp, ?_, ?_⟩
  · split
    · exact Or.inr rfl
    · exact Or.inl rfl
  · intro c hc
    rcases List.mem_cons.mp hc with rfl | hc
    · exact hd
    · exact hds c hc
  · rw [stdout_of_unfold, hshape]

/-! ## The claims -/

/-- C1: for every signed 64-bit clock reading the integer on the printed line is the
reading divided by 1000 and truncated toward zero: the floor of the exact quotient for a
non-negative reading, its ceiling for a negative one.  The magnitude of the printed
integer times 1000 never exceeds the magnitude of the reading and falls short of it by
less than 1000, so the fraction is dropped, never rounded up or away from zero. -/
theorem printed_value_truncates (argc : Int) (argv : List String) (now : Int)
    (hlo : INT64_MIN ≤ now) (hhi : now ≤ INT64_MAX) :
    read_line (stdout_of argc argv now) = some (Int.tdiv now 1000) ∧
    (0 ≤ now → read_line (stdout_of argc argv now) = some ⌊(now : ℚ) / 1000⌋) ∧
    (now < 0 → read_line (stdout_of argc argv now) = some ⌈(now : ℚ) / 1000⌉) ∧
    (∀ q, read_line (stdout_of argc argv now) = some q →
      q.natAbs * 1000 ≤ now.natAbs ∧ now.natAbs < (q.natAbs + 1) * 1000) := by
  have hread := read_line_stdout argc argv now hlo hhi
  have htdiv := tdiv_thousand now
  refine ⟨hread, ?_, ?_, ?_⟩
  · intro h
    rw [hread, floor_thousand, htdiv, if_pos h]
  · intro h
    rw [hread, ceil_thousand, htdiv, if_neg (by omega)]
  · intro q hq
    rw [hread] at hq
    have hq2 : q = Int.tdiv now 1000 := (Option.some.inj hq).symm
    rw [htdiv] at hq2
    split at hq2 <;> omega

/-- Witness of C1 at the reading -1500 ns, which prints -1. -/
theorem printed_value_truncates_witness :
    read_line (stdout_of 1 ["gettime"] (-1500)) = some (Int.tdiv (-1500) 1000) ∧
    (0 ≤ (-1500 : Int) →
      read_line (stdout_of 1 ["gettime"] (-1500)) = some ⌊((-1500 : Int) : ℚ) / 1000⌋) ∧
    ((-1500 : Int) < 0 →
      read_line (stdout_of 1 ["gettime"] (-1500)) = some ⌈((-1500 : Int) : ℚ) / 1000⌉) ∧
    (∀ q, read_line (stdout_of 1 ["gettime"] (-1500)) = some q →
      q.natAbs * 1000 ≤ (-1500 : Int).natAbs ∧ (-1500 : Int).natAbs < (q.natAbs + 1) * 1000) :=
  printed_value_truncates 1 ["gettime"] (-1500) (by decide) (by decide)

/-- C2: for every clock reading the bytes written to standard output are an optional
minus sign, then one or more characters in the range 0 to 9, then one newline, and
nothing else. -/
theorem output_format (argc : Int) (argv : List String) (now : Int) :
    ∃ sign digits, (sign = [] ∨ sign = ['-']) ∧ digits ≠ [] ∧
      (∀ c ∈ digits, '0' ≤ c ∧ c ≤ '9') ∧
      stdout_of argc argv now = sign ++ digits ++ ['\n'] :=
  stdout_shape argc argv now

/-- C3: for two signed 64-bit clock readings with the first no larger than the second,
both printed lines read back as integers and the integer of the second line is no
smaller than that of the first; the two runs may have any argument vectors. -/
theorem printed_value_monotone (argc1 argc2 : Int) (argv1 argv2 : List String)
    (n1 n2 : Int) (hlo1 : INT64_MIN ≤ n1) (hhi1 : n1 ≤ INT64_MAX)
    (hlo2 : INT64_MIN ≤ n2) (hhi2 : n2 ≤ INT64_MAX) (hle : n1 ≤ n2) :
    ∃ t1 t2, read_line (stdout_of argc1 argv1 n1) = some t1 ∧
      read_line (stdout_of argc2 argv2 n2) = some t2 ∧ t1 ≤ t2 := by
  refine ⟨Int.tdiv n1 1000, Int.tdiv n2 1000, read_line_stdout argc1 argv1 n1 hlo1 hhi1,
    read_line_stdout argc2 argv2 n2 hlo2 hhi2, ?_⟩
  rw [tdiv_thousand n1, tdiv_thousand n2]
  split <;> split <;> omega

/-- Witness of C3 at a pair of readings on opposite sides of zero. -/
theorem printed_value_monotone_witness :
    (-1500 : Int) ≤ 2500 ∧
    ∃ t1 t2, read_line (stdout_of 1 ["gettime"] (-1500)) = some t1 ∧
      read_line (stdout_of 3 ["gettime", "--foo", ""] 2500) = some t2 ∧ t1 ≤ t2 :=
  ⟨by decide, printed_value_monotone 1 3 ["gettime"] ["gettime", "--foo", ""] (-1500) 2500
    (by decide) (by decide) (by decide) (by decide) (by decide)⟩

/-- C9: for every reading in the signed 64-bit range the truncated quotient by 1000 lies
in the signed 64-bit range, storing it in a 64-bit register leaves it unchanged, the
conversion returns exactly that quotient, and that quotient is the value printed. -/
theorem conversion_no_overflow (argc : Int) (argv : List String) (now : Int)
    (hlo : INT64_MIN ≤ now) (hhi : now ≤ INT64_MAX) :
    INT64_MIN ≤ Int.tdiv now 1000 ∧ Int.tdiv now 1000 ≤ INT64_MAX ∧
    wrap_int64 (Int.tdiv now 1000) = Int.tdiv now 1000 ∧
    duration_cast steady_clock_period micro now = Int.tdiv now 1000 ∧
    stdout_of argc argv now = print_line (Int.tdiv now 1000) := by
  have hr := tdiv_thousand_range now hlo hhi
  refine ⟨hr.1, hr.2, wrap_int64_id _ hr.1 hr.2, duration_cast_exact now hlo hhi, ?_⟩
  rw [stdout_of_exact argc argv now hlo hhi, print_line_unfold]

/-- Witness of C9 at the smallest signed 64-bit reading. -/
theorem conversion_no_overflow_witness :
    INT64_MIN ≤ Int.tdiv INT64_MIN 1000 ∧ Int.tdiv INT64_MIN 1000 ≤ INT64_MAX ∧
    wrap_int64 (Int.tdiv INT64_MIN 1000) = Int.tdiv INT64_MIN 1000 ∧
    duration_cast steady_clock_period micro INT64_MIN = Int.tdiv INT64_MIN 1000 ∧
    stdout_of 1 ["gettime"] INT64_MIN = print_line (Int.tdiv INT64_MIN 1000) :=
  conversion_no_overflow 1 ["gettime"] INT64_MIN (by decide) (by decide)

/-- C10: for signed 64-bit readings, removing the trailing newline of the printed line
leaves the decimal rendering of the microsecond count, reading the line back as a signed
decimal integer gives the reading divided by 1000 truncated toward zero, and two
readings print the same line exactly when their microsecond counts are equal. -/
theorem line_round_trip (argc1 argc2 : Int) (argv1 argv2 : List String) (n1 n2 : Int)
    (hlo1 : INT64_MIN ≤ n1) (hhi1 : n1 ≤ INT64_MAX)
    (hlo2 : INT64_MIN ≤ n2) (hhi2 : n2 ≤ INT64_MAX) :
    strip_newline (stdout_of argc1 argv1 n1) = some (insert_int false (Int.tdiv n1 1000)) ∧
    (strip_newline (stdout_of argc1 argv1 n1)).bind parse_signed_decimal =
      some (Int.tdiv n1 1000) ∧
    (stdout_of argc1 argv1 n1 = stdout_of argc2 argv2 n2 ↔
      Int.tdiv n1 1000 = Int.tdiv n2 1000) := by
  have h1 := stdout_of_exact argc1 argv1 n1 hlo1 hhi1
  have h2 := stdout_of_exact argc2 argv2 n2 hlo2 hhi2
  refine ⟨by rw [h1, strip_newline_line], read_line_stdout argc1 argv1 n1 hlo1 hhi1, ?_⟩
  constructor
  · intro h
    have r1 := read_line_stdout argc1 argv1 n1 hlo1 hhi1
    have r2 := read_line_stdout argc2 argv2 n2 hlo2 hhi2
    rw [h, r2] at r1
    exact (Option.some.inj r1).symm
  · intro h
    rw [h1, h2, h]

/-- Witness of C10 at two readings that share the microsecond count zero. -/
theorem line_round_trip_witness :
    strip_newline (stdout_of 1 ["gettime"] (-999)) =
      some (insert_int false (Int.tdiv (-999) 1000)) ∧
    (strip_newline (stdout_of 1 ["gettime"] (-999))).bind parse_signed_decimal =
      some (Int.tdiv (-999) 1000) ∧
    (stdout_of 1 ["gettime"] (-999) = stdout_of 2 ["gettime", "123"] 999 ↔
      Int.tdiv (-999) 1000 = Int.tdiv 999 1000) :=
  line_round_trip 1 2 ["gettime"] ["gettime", "123"] (-999) 999
    (by decide) (by decide) (by decide) (by decide)

/-- C4 as stated fails: with N = 1 and the readings -1 ns and 999999 ns, one full
millisecond lies between the readings, the lines read back as 0 and 999, and their
difference 999 is below 1000. -/
theorem elapsed_bound_counterexample :
    (INT64_MIN ≤ (-1 : Int) ∧ (-1 : Int) ≤ INT64_MAX) ∧
    (INT64_MIN ≤ (999999 : Int) ∧ (999999 : Int) ≤ INT64_MAX) ∧
    (999999 : Int) - (-1) ≥ ((1 : Nat) : Int) * 1000000 ∧
    read_line (stdout_of 1 ["gettime"] (-1)) = some 0 ∧
    read_line (stdout_of 1 ["gettime"] 999999) = some 999 ∧
    ¬ ((999 : Int) - 0 ≥ ((1 : Nat) : Int) * 1000) := by
  decide

/-- C4 amended: for signed 64-bit readings at least N milliseconds apart, both lines read
back as integers T1 and T2; when the readings are not on opposite sides of zero (the
first is non-negative or the second is non-positive) T2 - T1 is at least N * 1000, and
for every pair T2 - T1 is at least N * 1000 - 1. -/
theorem elapsed_bound_same_side (N : Nat) (argc1 argc2 : Int) (argv1 argv2 : List String)
    (n1 n2 : Int) (hlo1 : INT64_MIN ≤ n1) (hhi1 : n1 ≤ INT64_MAX)
    (hlo2 : INT64_MIN ≤ n2) (hhi2 : n2 ≤ INT64_MAX)
    (hgap : n2 - n1 ≥ (N : Int) * 1000000) :
    ∃ T1 T2, read_line (stdout_of argc1 argv1 n1) = some T1 ∧
      read_line (stdout_of argc2 argv2 n2) = some T2 ∧
      (0 ≤ n1 ∨ n2 ≤ 0 → T2 - T1 ≥ (N : Int) * 1000) ∧
      T2 - T1 ≥ (N : Int) * 1000 - 1 := by
  refine ⟨Int.tdiv n1 1000, Int.tdiv n2 1000, read_line_stdout argc1 argv1 n1 hlo1 hhi1,
    read_line_stdout argc2 argv2 n2 hlo2 hhi2, ?_, ?_⟩
  · intro hside
    rw [tdiv_thousand n1, tdiv_thousand n2]
    split <;> split <;> omega
  · rw [tdiv_thousand n1, tdiv_thousand n2]
    split <;> split <;> omega

/-- Witness of the amended C4 at two negative readings 1.1 ms apart. -/
theorem elapsed_bound_same_side_witness :
    (-400000 : Int) - (-1500000) ≥ ((1 : Nat) : Int) * 1000000 ∧
    ∃ T1 T2, read_line (stdout_of 1 ["gettime"] (-1500000)) = some T1 ∧
      read_line (stdout_of 1 ["gettime"] (-400000)) = some T2 ∧
      (0 ≤ (-1500000 : Int) ∨ (-400000 : Int) ≤ 0 → T2 - T1 ≥ ((1 : Nat) : Int) * 1000) ∧
      T2 - T1 ≥ ((1 : Nat) : Int) * 1000 - 1 :=
  ⟨by decide, elapsed_bound_same_side 1 1 1 ["gettime"] ["gettime"] (-1500000) (-400000)
    (by decide) (by decide) (by decide) (by decide) (by decide)⟩

/-- C5: for every clock reading and every state of the output stream, two runs with any
two argument counts and argument vectors end with the same stream state, hence the same
bytes on standard output, and the same exit code. -/
theorem arguments_ignored (argc1 argc2 : Int) (argv1 argv2 : List String) (now : Int)
    (os : ostream) :
    main argc1 argv1 now os = main argc2 argv2 now os ∧
    (main argc1 argv1 now os).1.bytes = (main argc2 argv2 now os).1.bytes ∧
    (main argc1 argv1 now os).2 = (main argc2 argv2 now os).2 :=
  ⟨rfl, rfl, rfl⟩

/-- C7: for every clock reading and argument vector main returns exit code 0 whatever
the state of the stream; when the device accepts writes the stream ends without error
and the output holds exactly one newline, which is its last byte. -/
theorem normal_completion (argc : Int) (argv : List String) (now : Int) :
    (∀ os, (main argc argv now os).2 = 0) ∧
    (main argc argv now (cout true)).1.badbit = false ∧
    (stdout_of argc argv now).count '\n' = 1 ∧
    (stdout_of argc argv now).getLast? = some '\n' := by
  obtain ⟨sign, digits, hsign, -, hdigits, hout⟩ := stdout_shape argc argv now
  refine ⟨fun _ => rfl, ?_, ?_, ?_⟩
  · simp [main, endl, ostream.insert_long, ostream.write, ostream.flush, cout]
  · have h1 : sign.count '\n' = 0 := by
      rcases hsign with rfl | rfl <;> decide
    have h2 : digits.count '\n' = 0 := by
      apply List.count_eq_zero_of_not_mem
      intro hmem
      have := hdigits _ hmem
      revert this
      decide
    rw [hout, List.count_append, List.count_append, h1, h2]
    decide
  · rw [hout]
    simp

/-- C8: for every microsecond count v the line printed for v is canonical: it is the
single digit 0 followed by a newline when v = 0; otherwise its first digit is not 0; it
starts with a minus sign exactly when v is negative; it holds no plus sign.  The line
main prints is the line of its microsecond count, and a reading from -999 to -1
nanoseconds prints 0 without a minus sign. -/
theorem canonical_decimal (v : Int) :
    (v = 0 → print_line v = ['0', '\n']) ∧
    (v ≠ 0 → ∃ d ds, print_line v = (if v < 0 then ['-'] else []) ++ d :: ds ++ ['\n'] ∧
      ('0' ≤ d ∧ d ≤ '9') ∧ d ≠ '0' ∧ ∀ c ∈ ds, '0' ≤ c ∧ c ≤ '9') ∧
    ((print_line v).head? = some '-' ↔ v < 0) ∧
    '+' ∉ print_line v ∧
    (∀ (argc : Int) (argv : List String) (now : Int),
      stdout_of argc argv now = print_line (duration_cast steady_clock_period micro now)) ∧
    (∀ (argc : Int) (argv : List String) (now : Int), -999 ≤ now → now ≤ -1 →
      stdout_of argc argv now = ['0', '\n']) := by
  obtain ⟨d, ds, hshape, hd, hnz, hz, hds⟩ := insert_int_shape v
  have hline : print_line v = (if v < 0 then ['-'] else []) ++ d :: ds ++ ['\n'] := by
    rw [print_line_unfold, hshape]
  have hd_minus : d ≠ '-' := by
    rintro rfl
    revert hd
    decide
  have hd_plus : d ≠ '+' := by
    rintro rfl
    revert hd
    decide
  have hds_plus : '+' ∉ ds := by
    intro hmem
    have := hds _ hmem
    revert this
    decide
  refine ⟨?_, ?_, ?_, ?_, ?_, ?_⟩
  · intro h0
    obtain ⟨rfl, rfl⟩ := hz h0
    rw [hline, h0]
    rfl
  · intro hv
    exact ⟨d, ds, hline, hd, hnz hv, hds⟩
  · rw [hline]
    by_cases hneg : v < 0
    · simp [hneg]
    · simp [hneg, hd_minus]
  · rw [hline]
    by_cases hneg : v < 0
    · simp [hneg, hds_plus, hd_plus.symm]
    · simp [hneg, hds_plus, hd_plus.symm]
  · intro argc argv now
    rw [stdout_of_unfold, print_line_unfold]
  · intro argc argv now h1 h2
    have hlo : INT64_MIN ≤ now := by
      unfold INT64_MIN
      omega
    have hhi : now ≤ INT64_MAX := by
      unfold INT64_MAX
      omega
    have hq : Int.tdiv now 1000 = 0 := by
      rw [tdiv_thousand]
      split <;> omega
    rw [stdout_of_exact argc argv now hlo hhi, hq]
    rfl

/-- Witness of C8: the count 0 prints the line 0, and so does the reading -999 ns. -/
theorem canonical_decimal_witness :
    print_line 0 = ['0', '\n'] ∧ stdout_of 1 ["gettime"] (-999) = ['0', '\n'] :=
  ⟨(canonical_decimal 0).1 rfl,
    (canonical_decimal 0).2.2.2.2.2 1 ["gettime"] (-999) (by decide) (by decide)⟩

end gettime
